import Mathlib

set_option maxHeartbeats 2000000
set_option maxRecDepth 20000

/-!
Verification of the structured-extraction pipeline of the phone-purchase-referee
repository.  The development shallowly embeds the two source files
`src/ai/gemini-comparison.ts` (JSON extraction from markdown fences, JSON
parsing, zod schema validation, two-model fallback loop) and
`src/app/actions.ts` (the `comparePhones` server action), together with the
JavaScript string primitives they rely on (`String.prototype.split`, `trim`,
`includes`), and proves the pipeline's contract properties against them.

JavaScript strings are embedded as Lean `String` (a wrapped `List Char`), the
string primitives are implemented over the character list.  The external
generative backend is an oracle `String → BackendResponse` assigning to each
model name the outcome of invoking it with the (per-request constant) prompt;
the list of invoked model names is returned alongside the result, embedding
the invocation trace of the fallback loop.
-/

namespace Referee

/-! ## JavaScript string primitives -/

/-- Whether `pat` is a leading segment of `l` (occurrence test used by the
embedding of `String.prototype.split` and `String.prototype.includes`). -/
def leadsWith : List Char → List Char → Bool
  | [], _ => true
  | _ :: _, [] => false
  | p :: ps, c :: cs => if p = c then leadsWith ps cs else false

/-- Fuel-indexed core of JS `String.prototype.split` with the non-empty
separator `s0 :: sr`: scan left to right, cutting at each non-overlapping
occurrence of the separator.  Fuel `l.length + 1` always suffices; the
fuel argument only makes the recursion structural. -/
def listSplitF (s0 : Char) (sr : List Char) : Nat → List Char → List (List Char)
  | 0, l => [l]
  | _ + 1, [] => [[]]
  | f + 1, c :: rest =>
    if leadsWith (s0 :: sr) (c :: rest) then
      [] :: listSplitF s0 sr f (rest.drop sr.length)
    else
      match listSplitF s0 sr f rest with
      | [] => [[c]]
      | seg :: segs => (c :: seg) :: segs

/-- JS `String.prototype.split` with non-empty separator, over `List Char`. -/
def listSplit (s0 : Char) (sr : List Char) (l : List Char) : List (List Char) :=
  listSplitF s0 sr (l.length + 1) l

/-- JS `String.prototype.includes` over `List Char`: some position of `l`
starts an occurrence of `sep`. -/
def listContainsSeg (sep : List Char) : List Char → Bool
  | [] => sep.isEmpty
  | c :: rest => leadsWith sep (c :: rest) || listContainsSeg sep rest

/-- JS `String.prototype.trim` over `List Char`: drop leading and trailing
whitespace. -/
def listTrim (l : List Char) : List Char :=
  ((l.dropWhile Char.isWhitespace).reverse.dropWhile Char.isWhitespace).reverse

/-- JS `text.split(sep)` for a non-empty string separator.  (The repository
never splits on the empty string; that case is given a junk value.) -/
def jsSplit (s sep : String) : List String :=
  match sep.data with
  | [] => []
  | s0 :: sr => (listSplit s0 sr s.data).map String.mk

/-- JS `text.includes(sep)`. -/
def jsIncludes (s sep : String) : Bool :=
  listContainsSeg sep.data s.data

/-- JS `text.trim()`. -/
def jsTrim (s : String) : String :=
  String.mk (listTrim s.data)

/-! ## JSON values and `JSON.parse`

`JSON.parse` is embedded by a small recursive-descent parser over the
character list.  Numbers are modelled as integers (optional sign and digits);
no claim depends on fractional or exponent syntax.  Object fields are kept in
occurrence order; readers take the last occurrence of a key, matching the
last-wins semantics of duplicate keys in a JavaScript object literal. -/

inductive Json where
  | null
  | bool (b : Bool)
  | num (n : Int)
  | str (s : String)
  | arr (items : List Json)
  | obj (fields : List (String × Json))

/-- Value of the last occurrence of key `k` (JS objects keep the last
assignment to a duplicated key). -/
def lookupLast (k : String) : List (String × Json) → Option Json
  | [] => none
  | (k', v) :: rest =>
    match lookupLast k rest with
    | some r => some r
    | none => if k' = k then some v else none

/-- Field access on a JSON value: `none` on non-objects and absent keys. -/
def Json.getField (j : Json) (k : String) : Option Json :=
  match j with
  | .obj fields => lookupLast k fields
  | _ => none

/-- Skip JSON whitespace. -/
def skipWs (l : List Char) : List Char :=
  l.dropWhile Char.isWhitespace

/-- Parse the body of a JSON string literal (after the opening quote) up to
the closing quote.  Escapes for quote, backslash, slash, `n`, `t`, `r` are
handled; other escaped characters stand for themselves. -/
def parseStringBody : List Char → Option (List Char × List Char)
  | [] => none
  | '"' :: rest => some ([], rest)
  | '\\' :: e :: rest =>
    (parseStringBody rest).map fun p =>
      ((if e = 'n' then '\n' else if e = 't' then '\t' else if e = 'r' then '\r' else e) :: p.1, p.2)
  | c :: rest =>
    (parseStringBody rest).map fun p => (c :: p.1, p.2)

/-- Decimal digits to a natural number. -/
def digitsToNat (ds : List Char) : Nat :=
  ds.foldl (fun a c => a * 10 + (c.toNat - 48)) 0

/-- Parse a JSON number (integer fragment: optional minus, digits). -/
def parseNumber (l : List Char) : Option (Json × List Char) :=
  match l with
  | '-' :: rest =>
    match rest.takeWhile Char.isDigit with
    | [] => none
    | ds => some (.num (-(digitsToNat ds : Int)), rest.dropWhile Char.isDigit)
  | _ =>
    match l.takeWhile Char.isDigit with
    | [] => none
    | ds => some (.num (digitsToNat ds), l.dropWhile Char.isDigit)

mutual

/-- Fuel-indexed JSON value parser.  Returns the value and the unconsumed
remainder. -/
def parseValueF : Nat → List Char → Option (Json × List Char)
  | 0, _ => none
  | f + 1, l =>
    match skipWs l with
    | '\x7b' :: rest =>
      (match skipWs rest with
       | '\x7d' :: r2 => some (.obj [], r2)
       | _ => (parseMembersF f rest).map fun p => (.obj p.1, p.2))
    | '[' :: rest =>
      (match skipWs rest with
       | ']' :: r2 => some (.arr [], r2)
       | _ => (parseItemsF f rest).map fun p => (.arr p.1, p.2))
    | '"' :: rest => (parseStringBody rest).map fun p => (.str (String.mk p.1), p.2)
    | 't' :: 'r' :: 'u' :: 'e' :: r => some (.bool true, r)
    | 'f' :: 'a' :: 'l' :: 's' :: 'e' :: r => some (.bool false, r)
    | 'n' :: 'u' :: 'l' :: 'l' :: r => some (.null, r)
    | l2 => parseNumber l2

/-- Parse the members of a non-empty JSON object (after the opening brace),
including the closing brace. -/
def parseMembersF : Nat → List Char → Option (List (String × Json) × List Char)
  | 0, _ => none
  | f + 1, l =>
    match skipWs l with
    | '"' :: rest =>
      (match parseStringBody rest with
       | none => none
       | some (k, r1) =>
         match skipWs r1 with
         | ':' :: r2 =>
           (match parseValueF f r2 with
            | none => none
            | some (v, r3) =>
              match skipWs r3 with
              | ',' :: r4 => (parseMembersF f r4).map fun p => ((String.mk k, v) :: p.1, p.2)
              | '\x7d' :: r4 => some ([(String.mk k, v)], r4)
              | _ => none)
         | _ => none)
    | _ => none

/-- Parse the items of a non-empty JSON array (after the opening bracket),
including the closing bracket. -/
def parseItemsF : Nat → List Char → Option (List Json × List Char)
  | 0, _ => none
  | f + 1, l =>
    match parseValueF f l with
    | none => none
    | some (v, r1) =>
      match skipWs r1 with
      | ',' :: r2 => (parseItemsF f r2).map fun p => (v :: p.1, p.2)
      | ']' :: r2 => some ([v], r2)
      | _ => none

end

/-- Parse one JSON value spanning exactly the given (pre-trimmed) text. -/
def parseCore (l : List Char) : Option Json :=
  match parseValueF (2 * l.length + 2) l with
  | some (v, []) => some v
  | _ => none

/-- Embedding of `JSON.parse`: trim the input, parse one value, and require
that nothing follows it.  `none` embeds a thrown `SyntaxError`. -/
def Json.parse (s : String) : Option Json :=
  parseCore (listTrim s.data)

/-! ## JSON extraction from the raw model response

`src/ai/gemini-comparison.ts` lines 213–219:
```
let jsonText = text;
if (text.includes("```json")) {
  jsonText = text.split("```json")[1]?.split("```")[0]?.trim() || text;
} else if (text.includes("```")) {
  jsonText = text.split("```")[1]?.split("```")[0]?.trim() || text;
}
```
The `|| text` keeps the whole text both when the indexing is `undefined` and
when the trimmed block contents are the (falsy) empty string. -/

/-- The fence marker labelled as JSON. -/
def jsonFenceTag : String := "```json"

/-- The plain fence marker. -/
def fenceTag : String := "```"

/-- Embedding of the JS `x || text` fallback: `none` (undefined) and the
falsy empty string both fall back to `text`. -/
def orElseText (o : Option String) (text : String) : String :=
  match o with
  | none => text
  | some s => if s = "" then text else s

/-- The JSON-extraction step of `compareAndSelectPhone`. -/
def extractJson (text : String) : String :=
  if jsIncludes text jsonFenceTag then
    orElseText (((jsSplit text jsonFenceTag)[1]?).map fun afterTag =>
      jsTrim ((jsSplit afterTag fenceTag).headD "")) text
  else if jsIncludes text fenceTag then
    orElseText (((jsSplit text fenceTag)[1]?).map fun afterTag =>
      jsTrim ((jsSplit afterTag fenceTag).headD "")) text
  else text

/-! Spec-side reading of the extraction step (§4.2 step 2 of the spec): the
payload of a fenced block is what stands after the first (labelled) fence
marker, up to the next fence marker, trimmed. -/

/-- The text contains a fenced block labelled as JSON. -/
def hasJsonFence (text : String) : Bool := jsIncludes text jsonFenceTag

/-- The text contains a fenced block. -/
def hasFence (text : String) : Bool := jsIncludes text fenceTag

/-- Trimmed contents of the first JSON-labelled fenced block: the text
after the first occurrence of the labelled marker, up to the next fence. -/
def jsonBlockContents (text : String) : String :=
  jsTrim ((jsSplit ((jsSplit text jsonFenceTag)[1]?.getD "") fenceTag).headD "")

/-- Trimmed contents of the first fenced block. -/
def anyBlockContents (text : String) : String :=
  jsTrim ((jsSplit ((jsSplit text fenceTag)[1]?.getD "") fenceTag).headD "")

/-- A bare JSON string wrapped in a JSON-labelled fenced block. -/
def wrapJson (s : String) : String :=
  "```json\n" ++ s ++ "\n```"

/-! ## The Comparison Result and its schema (`PhoneComparisonSchema`)

Embedding of the zod schema of `src/ai/gemini-comparison.ts` lines 29–76.
Validation is a partial function from parsed JSON values to the typed
result: `none` embeds a thrown `ZodError`.  An absent field is `undefined`
to zod, so `.optional()` fields accept absence (but not `null`), and the
`.nullable().optional()` budget alternatives accept absence, `null`, or a
string; those are modelled as `Option (Option String)` (absent / null /
present). -/

structure SelectedPhone where
  phone_id : String
  phone_name : String
  reason_for_selection : String
  how_it_matches_priorities : String

structure RunnerUp where
  phone_id : String
  phone_name : String
  why_not_selected : String

structure PhoneEvaluated where
  phone_id : String
  phone_name : String
  price_inr : Int
  key_strengths : List String
  key_weaknesses : List String
  score_by_priority : List (String × Int)

structure TradeoffEntry where
  phone_a : String
  phone_b : String
  what_a_gains : String
  what_a_loses : String
  recommendation : String

structure SpecComparisonEntry where
  spec_name : String
  values : List (String × (String ⊕ Int))
  winner : String
  analysis : String

structure BudgetAnalysis where
  selected_phone_price : Int
  price_range : String
  value_for_money_explanation : String
  alternative_if_budget_increases : Option (Option String)
  alternative_if_budget_decreases : Option (Option String)

structure PhoneComparison where
  selected_phone : SelectedPhone
  runner_up : Option RunnerUp
  all_phones_evaluated : List PhoneEvaluated
  tradeoff_analysis : List TradeoffEntry
  specification_comparison : List SpecComparisonEntry
  budget_analysis : BudgetAnalysis
  summary : String

/-- `z.string()`. -/
def asStr : Json → Option String
  | .str s => some s
  | _ => none

/-- `z.number()`. -/
def asNum : Json → Option Int
  | .num n => some n
  | _ => none

/-- `z.array(...)`: the element list of an array value. -/
def asArr : Json → Option (List Json)
  | .arr items => some items
  | _ => none

/-- Validate every element of a list; fail if any element fails. -/
def parseAll {α β : Type} (f : α → Option β) : List α → Option (List β)
  | [] => some []
  | x :: xs => do
    let y ← f x
    let ys ← parseAll f xs
    pure (y :: ys)

/-- A required field validated by `f`. -/
def fieldWith {β : Type} (f : Json → Option β) (j : Json) (k : String) : Option β :=
  (j.getField k).bind f

/-- `.optional()`: absence is accepted, a present value must validate
(`null` is not accepted by a non-nullable schema). -/
def parseOptional {β : Type} (f : Json → Option β) : Option Json → Option (Option β)
  | none => some none
  | some v => (f v).map some

/-- `z.string().nullable().optional()`: absent / null / string. -/
def parseNullableOptStr : Option Json → Option (Option (Option String))
  | none => some none
  | some .null => some (some none)
  | some (.str s) => some (some (some s))
  | some _ => none

/-- `z.record(z.string(), z.number())`: an object whose values are all
numbers. -/
def parseNumRecord : Json → Option (List (String × Int))
  | .obj fields => parseAll (fun kv => (asNum kv.2).map fun n => (kv.1, n)) fields
  | _ => none

/-- `z.record(z.string(), z.union([z.string(), z.number()]))`. -/
def parseStrNumRecord : Json → Option (List (String × (String ⊕ Int)))
  | .obj fields =>
    parseAll (fun kv =>
      match kv.2 with
      | .str s => some (kv.1, Sum.inl s)
      | .num n => some (kv.1, Sum.inr n)
      | _ => none) fields
  | _ => none

/-- `z.array(z.string())` as a field. -/
def strArrField (j : Json) (k : String) : Option (List String) :=
  (fieldWith asArr j k).bind (parseAll asStr)

/-- The `selected_phone` object schema. -/
def parseSelectedPhone (j : Json) : Option SelectedPhone := do
  let pid ← fieldWith asStr j "phone_id"
  let pname ← fieldWith asStr j "phone_name"
  let reason ← fieldWith asStr j "reason_for_selection"
  let how ← fieldWith asStr j "how_it_matches_priorities"
  pure ⟨pid, pname, reason, how⟩

/-- The `runner_up` object schema. -/
def parseRunnerUp (j : Json) : Option RunnerUp := do
  let pid ← fieldWith asStr j "phone_id"
  let pname ← fieldWith asStr j "phone_name"
  let why ← fieldWith asStr j "why_not_selected"
  pure ⟨pid, pname, why⟩

/-- The `all_phones_evaluated` element schema. -/
def parsePhoneEvaluated (j : Json) : Option PhoneEvaluated := do
  let pid ← fieldWith asStr j "phone_id"
  let pname ← fieldWith asStr j "phone_name"
  let price ← fieldWith asNum j "price_inr"
  let strengths ← strArrField j "key_strengths"
  let weaknesses ← strArrField j "key_weaknesses"
  let scores ← fieldWith parseNumRecord j "score_by_priority"
  pure ⟨pid, pname, price, strengths, weaknesses, scores⟩

/-- The `tradeoff_analysis` element schema. -/
def parseTradeoff (j : Json) : Option TradeoffEntry := do
  let pa ← fieldWith asStr j "phone_a"
  let pb ← fieldWith asStr j "phone_b"
  let gains ← fieldWith asStr j "what_a_gains"
  let loses ← fieldWith asStr j "what_a_loses"
  let rcm ← fieldWith asStr j "recommendation"
  pure ⟨pa, pb, gains, loses, rcm⟩

/-- The `specification_comparison` element schema. -/
def parseSpecComparison (j : Json) : Option SpecComparisonEntry := do
  let sname ← fieldWith asStr j "spec_name"
  let vals ← fieldWith parseStrNumRecord j "values"
  let win ← fieldWith asStr j "winner"
  let ana ← fieldWith asStr j "analysis"
  pure ⟨sname, vals, win, ana⟩

/-- The `budget_analysis` object schema. -/
def parseBudgetAnalysis (j : Json) : Option BudgetAnalysis := do
  let price ← fieldWith asNum j "selected_phone_price"
  let range ← fieldWith asStr j "price_range"
  let vfm ← fieldWith asStr j "value_for_money_explanation"
  let inc ← parseNullableOptStr (j.getField "alternative_if_budget_increases")
  let dec ← parseNullableOptStr (j.getField "alternative_if_budget_decreases")
  pure ⟨price, range, vfm, inc, dec⟩

/-- Embedding of `PhoneComparisonSchema.parse` (the Response Validator):
`none` embeds a thrown `ZodError`, `some` the validated Comparison Result. -/
def PhoneComparisonSchema.parse (j : Json) : Option PhoneComparison := do
  let sel ← fieldWith parseSelectedPhone j "selected_phone"
  let ru ← parseOptional parseRunnerUp (j.getField "runner_up")
  let alls ← (fieldWith asArr j "all_phones_evaluated").bind (parseAll parsePhoneEvaluated)
  let trades ← (fieldWith asArr j "tradeoff_analysis").bind (parseAll parseTradeoff)
  let specs ← (fieldWith asArr j "specification_comparison").bind (parseAll parseSpecComparison)
  let budget ← fieldWith parseBudgetAnalysis j "budget_analysis"
  let summary ← fieldWith asStr j "summary"
  pure ⟨sel, ru, alls, trades, specs, budget, summary⟩

/-! ## The comparison pipeline (`compareAndSelectPhone`)

The external generative backend is embedded as an oracle
`backend : String → BackendResponse` giving, per model name, the outcome of
`genAI.getGenerativeModel({model}).generateContent(prompt)` for this
request.  The prompt (lines 108–194) is a pure function of the request and
is the same for every candidate, so it is subsumed by quantifying over the
oracle; no claim refers to the prompt's content.  `compareAndSelectPhone`
returns the list of invoked model names (the invocation trace, in order)
next to its result; a thrown error is an `Except.error` carrying the
`Error.message`. -/

/-- Modelled from the spec: the Phone Record supplied by `src/lib/csv-loader.ts`
(not under `src/`): identity, display name, brand, numeric price, categorical
price band, 5G flag.  The further specification fields listed in §3 are read
only by the prompt builder and are omitted here. -/
structure PhoneData where
  id : String
  name : String
  brand : String
  price_inr : Int
  price_range : String
  has_5g : Bool

/-- The Comparison Request (`ComparisonRequest` interface, lines 84–89). -/
structure ComparisonRequest where
  phones : List PhoneData
  budget : Option Int
  priorities : List String
  additionalRequirements : Option String

/-- The process environment: `process.env.GEMINI_API_KEY` (`none` embeds an
unset variable). -/
structure Env where
  apiKey : Option String

/-- The falsiness test `!process.env.GEMINI_API_KEY`: unset or empty. -/
def Env.apiKeyFalsy (env : Env) : Bool :=
  match env.apiKey with
  | none => true
  | some s => s = ""

/-- Outcome of one backend invocation: a thrown transport/auth/quota error
with its message, or the raw response text. -/
inductive BackendResponse where
  | failure (message : String)
  | reply (text : String)

/-- Modelled: the engine-specific message of the `SyntaxError` thrown by
`JSON.parse`; no claim depends on its exact text. -/
def jsonParseErrorMessage : String := "Unexpected token in JSON"

/-- Modelled: the message of the `ZodError` thrown by schema validation; no
claim depends on its exact text. -/
def zodErrorMessage : String := "Invalid input"

/-- The error recorded for one failed candidate attempt (the `catch` branch
of the loop body classifies by origin; messages are carried alongside). -/
inductive AttemptError where
  | transport (message : String)
  | parseFailure
  | validationFailure

/-- The `Error.message` of a recorded candidate error. -/
def AttemptError.message : AttemptError → String
  | .transport m => m
  | .parseFailure => jsonParseErrorMessage
  | .validationFailure => zodErrorMessage

/-- One candidate attempt (the `try` block of the loop body, lines 203–231):
invoke the backend, extract the JSON payload, parse it, validate it. -/
def attempt (resp : BackendResponse) : Except AttemptError PhoneComparison :=
  match resp with
  | .failure m => .error (.transport m)
  | .reply text =>
    match Json.parse (extractJson text) with
    | none => .error .parseFailure
    | some parsed =>
      match PhoneComparisonSchema.parse parsed with
      | none => .error .validationFailure
      | some validated => .ok validated

/-- `const modelsToTry = ["gemini-2.0-flash-exp", "gemini-1.5-flash"]`. -/
def modelsToTry : List String := ["gemini-2.0-flash-exp", "gemini-1.5-flash"]

/-- The aggregated failure message (line 245):
`All Gemini models failed. Last error: ${lastError?.message || 'Unknown error'}`. -/
def allFailedMessage (lastError : Option AttemptError) : String :=
  "All Gemini models failed. Last error: " ++
    (match lastError with
     | none => "Unknown error"
     | some e => if e.message = "" then "Unknown error" else e.message)

/-- The candidate loop (lines 200–242): try each model in order, return on
the first success, record the error and continue otherwise; when no
candidate remains, throw the aggregated error.  The first component is the
trace of invoked model names. -/
def runModels (backend : String → BackendResponse) :
    List String → Option AttemptError → List String × Except String PhoneComparison
  | [], lastError => ([], .error (allFailedMessage lastError))
  | modelName :: rest, _ =>
    match attempt (backend modelName) with
    | .ok v => ([modelName], .ok v)
    | .error e =>
      let next := runModels backend rest (some e)
      (modelName :: next.1, next.2)

/-- Embedding of `compareAndSelectPhone` (lines 94–246): precondition checks
on the credential and the phone list, then the candidate loop.  Returns the
invocation trace next to the result. -/
def compareAndSelectPhone (env : Env) (backend : String → BackendResponse)
    (request : ComparisonRequest) : List String × Except String PhoneComparison :=
  if env.apiKeyFalsy then ([], .error "GEMINI_API_KEY is not set")
  else if request.phones.length = 0 then ([], .error "No phones to compare")
  else runModels backend modelsToTry none

/-- A grounding source (`{ title, uri }`). -/
structure GroundingSource where
  title : String
  uri : String

/-- The result of `compareWithGrounding`. -/
structure GroundedComparison where
  comparison : PhoneComparison
  sources : List GroundingSource

/-- Embedding of `compareWithGrounding` (lines 251–263): delegate to
`compareAndSelectPhone` and pair the comparison with an empty source list. -/
def compareWithGrounding (env : Env) (backend : String → BackendResponse)
    (request : ComparisonRequest) : List String × Except String GroundedComparison :=
  let r := compareAndSelectPhone env backend request
  (r.1, r.2.map fun c => ⟨c, []⟩)

/-! ## The `comparePhones` server action (`src/app/actions.ts` lines 33–149)

`FormData.get` returns `string | null`; the five read keys are embedded as
`Option String` fields.  The catalog returned by `loadPhonesFromCSV` (in
`src/lib/csv-loader.ts`, outside `src/`) is an explicit parameter; elapsed
wall-clock time (`Date.now()` deltas) is not modelled and `processingTime`
is rendered as `0`. -/

/-- The form fields read by `comparePhones`. -/
structure FormDataModel where
  budget : Option String
  priorities : Option String
  requirements : Option String
  require_5g : Option String
  use_grounding : Option String

/-- The `CompareState` interface (lines 15–21). -/
structure CompareState where
  comparison : Option PhoneComparison
  phones : List PhoneData
  sources : List GroundingSource
  error : Option String
  processingTime : Nat

/-- Modelled: JS `parseFloat` restricted to optional-sign integer numerals;
`none` embeds `NaN`.  No claim depends on fractional input. -/
def parseFloatModel (s : String) : Option Int :=
  match s.data with
  | '-' :: rest =>
    match rest.takeWhile Char.isDigit with
    | [] => none
    | ds => some (-(digitsToNat ds : Int))
  | l =>
    match l.takeWhile Char.isDigit with
    | [] => none
    | ds => some (digitsToNat ds)

/-- Modelled: `budget?.toLocaleString('en-IN')` inside the no-phones error
message; locale digit grouping is not modelled, `undefined` renders as
"undefined". -/
def budgetDisplay : Option Int → String
  | none => "undefined"
  | some n => toString n

/-- Modelled from the spec: `getPhonesInBudget` of `src/lib/csv-loader.ts`
(not under `src/`) narrows the catalog to phones priced within the budget. -/
def getPhonesInBudget (catalog : List PhoneData) (budget : Int) : List PhoneData :=
  catalog.filter fun p => p.price_inr ≤ budget

/-- The error-carrying `CompareState` returned on every failure path of
`comparePhones` (empty phones and sources, no comparison). -/
def errorState (msg : String) : CompareState :=
  { comparison := none, phones := [], sources := [], error := some msg, processingTime := 0 }

/-- `const budget = budgetStr ? parseFloat(budgetStr) : undefined` (lines
41–42): a null or empty form value is no budget. -/
def parsedBudget (formData : FormDataModel) : Option Int :=
  match formData.budget with
  | none => none
  | some s => if s = "" then none else parseFloatModel s

/-- Lines 45–48: split the priorities field on commas, trim, drop empties. -/
def parsedPriorities (formData : FormDataModel) : List String :=
  match formData.priorities with
  | none => []
  | some s => if s = "" then [] else ((jsSplit s ",").map jsTrim).filter fun p => ¬ p = ""

/-- Lines 66–83: the catalog narrowed by budget (with the 1.2-times widening
when fewer than 3 phones fit) and by the 5G requirement.
`p.price_inr * 5 ≤ b * 6` is the exact integer form of
`p.price_inr <= budget * 1.2`; `budget = 0` and `budget = NaN` are falsy and
leave the catalog whole. -/
def narrowedPhones (catalog : List PhoneData) (budget : Option Int)
    (require5G : Bool) : List PhoneData :=
  let phones0 : List PhoneData :=
    match budget with
    | none => catalog
    | some b =>
      if b = 0 then catalog
      else
        let inBudget := getPhonesInBudget catalog b
        if inBudget.length < 3 then catalog.filter (fun p => p.price_inr * 5 ≤ b * 6)
        else inBudget
  if require5G then phones0.filter (fun p => p.has_5g) else phones0

/-- Embedding of the `comparePhones` server action.  The `try`/`catch` of
the source catches every error thrown by the body (the only throwing calls
are the two pipeline entry points, whose errors are the `Except.error`
branches below), so the action always returns a `CompareState`. -/
def comparePhones (catalog : List PhoneData) (env : Env)
    (backend : String → BackendResponse) (formData : FormDataModel) : CompareState :=
  let budget := parsedBudget formData
  let priorities := parsedPriorities formData
  if priorities.length = 0 then
    errorState "Please select at least one priority (battery, camera, performance, etc.)"
  else
    let require5G := formData.require_5g = some "on"
    let useGrounding := formData.use_grounding = some "on"
    let phones1 := narrowedPhones catalog budget require5G
    if phones1.length = 0 then
      errorState ("No phones found within budget ₹" ++ budgetDisplay budget ++
        ". Try increasing your budget.")
    else
      let phones2 := if phones1.length > 10 then phones1.take 10 else phones1
      let requirements : Option String :=
        if require5G then some ("Must have 5G. " ++ (formData.requirements.getD ""))
        else formData.requirements
      let request : ComparisonRequest :=
        { phones := phones2, budget := budget, priorities := priorities,
          additionalRequirements := requirements }
      if useGrounding then
        match (compareWithGrounding env backend request).2 with
        | .ok g =>
          { comparison := some g.comparison, phones := phones2, sources := g.sources,
            error := none, processingTime := 0 }
        | .error msg => errorState msg
      else
        match (compareAndSelectPhone env backend request).2 with
        | .ok c =>
          { comparison := some c, phones := phones2, sources := [], error := none,
            processingTime := 0 }
        | .error msg => errorState msg

/-! ## Concrete data for witnesses and counterexamples -/

/-- A one-phone catalog entry. -/
def phoneP1 : PhoneData :=
  { id := "p1", name := "Alpha", brand := "A", price_inr := 25000,
    price_range := "mid", has_5g := true }

/-- An environment with the credential set. -/
def envWithKey : Env := { apiKey := some "test-key" }

/-- A request over the one-phone catalog. -/
def requestP1 : ComparisonRequest :=
  { phones := [phoneP1], budget := some 30000, priorities := ["battery"],
    additionalRequirements := none }

/-- A raw response that is valid JSON conforming to the schema and selects
the id "p2". -/
def validTextP2 : String :=
  "\x7b\"selected_phone\":\x7b\"phone_id\":\"p2\",\"phone_name\":\"Beta\",\"reason_for_selection\":\"best battery\",\"how_it_matches_priorities\":\"battery first\"\x7d,\"all_phones_evaluated\":[],\"tradeoff_analysis\":[],\"specification_comparison\":[],\"budget_analysis\":\x7b\"selected_phone_price\":28000,\"price_range\":\"mid\",\"value_for_money_explanation\":\"good\"\x7d,\"summary\":\"pick p2\"\x7d"

/-- The validated value of `validTextP2`. -/
def comparisonP2 : PhoneComparison :=
  { selected_phone :=
      { phone_id := "p2", phone_name := "Beta", reason_for_selection := "best battery",
        how_it_matches_priorities := "battery first" },
    runner_up := none,
    all_phones_evaluated := [],
    tradeoff_analysis := [],
    specification_comparison := [],
    budget_analysis :=
      { selected_phone_price := 28000, price_range := "mid",
        value_for_money_explanation := "good",
        alternative_if_budget_increases := none,
        alternative_if_budget_decreases := none },
    summary := "pick p2" }

/-- A raw response that is valid JSON conforming to the schema but whose
selected phone id "zzz" belongs to no phone of any small catalog. -/
def foreignText : String :=
  "\x7b\"selected_phone\":\x7b\"phone_id\":\"zzz\",\"phone_name\":\"Ghost\",\"reason_for_selection\":\"r\",\"how_it_matches_priorities\":\"m\"\x7d,\"all_phones_evaluated\":[],\"tradeoff_analysis\":[],\"specification_comparison\":[],\"budget_analysis\":\x7b\"selected_phone_price\":1000,\"price_range\":\"budget\",\"value_for_money_explanation\":\"v\"\x7d,\"summary\":\"s\"\x7d"

/-- The validated value of `foreignText`. -/
def foreignComparison : PhoneComparison :=
  { selected_phone :=
      { phone_id := "zzz", phone_name := "Ghost", reason_for_selection := "r",
        how_it_matches_priorities := "m" },
    runner_up := none,
    all_phones_evaluated := [],
    tradeoff_analysis := [],
    specification_comparison := [],
    budget_analysis :=
      { selected_phone_price := 1000, price_range := "budget",
        value_for_money_explanation := "v",
        alternative_if_budget_increases := none,
        alternative_if_budget_decreases := none },
    summary := "s" }

/-- A backend whose every model returns the foreign-id payload. -/
def backendForeign : String → BackendResponse := fun _ => .reply foreignText

/-- A backend whose first model answers with the valid payload. -/
def backendFirstOk : String → BackendResponse := fun _ => .reply validTextP2

/-- A backend whose first model fails with a transport error and whose
second answers with the valid payload. -/
def backendSecondOk : String → BackendResponse := fun m =>
  if m = "gemini-2.0-flash-exp" then .failure "quota exceeded" else .reply validTextP2

/-- A backend whose every model fails with a transport error. -/
def backendAllFail : String → BackendResponse := fun _ => .failure "service down"

/-- A schema-conformant payload with `runner_up` and both budget
alternatives omitted entirely. -/
def minimalPayload : Json :=
  .obj [("selected_phone", .obj [("phone_id", .str "p1"), ("phone_name", .str "Alpha"),
          ("reason_for_selection", .str "r"), ("how_it_matches_priorities", .str "m")]),
        ("all_phones_evaluated", .arr [.obj [("phone_id", .str "p1"),
          ("phone_name", .str "Alpha"), ("price_inr", .num 25000),
          ("key_strengths", .arr [.str "battery"]), ("key_weaknesses", .arr []),
          ("score_by_priority", .obj [("battery", .num 9)])]]),
        ("tradeoff_analysis", .arr []),
        ("specification_comparison", .arr []),
        ("budget_analysis", .obj [("selected_phone_price", .num 25000),
          ("price_range", .str "mid"), ("value_for_money_explanation", .str "v")]),
        ("summary", .str "s")]

/-- The validated value of `minimalPayload`. -/
def minimalComparison : PhoneComparison :=
  { selected_phone :=
      { phone_id := "p1", phone_name := "Alpha", reason_for_selection := "r",
        how_it_matches_priorities := "m" },
    runner_up := none,
    all_phones_evaluated :=
      [{ phone_id := "p1", phone_name := "Alpha", price_inr := 25000,
         key_strengths := ["battery"], key_weaknesses := [],
         score_by_priority := [("battery", 9)] }],
    tradeoff_analysis := [],
    specification_comparison := [],
    budget_analysis :=
      { selected_phone_price := 25000, price_range := "mid",
        value_for_money_explanation := "v",
        alternative_if_budget_increases := none,
        alternative_if_budget_decreases := none },
    summary := "s" }

/-- A payload whose `all_phones_evaluated` element gives the numeric field
`price_inr` as a string. -/
def badPriceElement : Json :=
  .obj [("price_inr", .str "expensive")]

/-- The payload around `badPriceElement`. -/
def badPricePayload : Json :=
  .obj [("all_phones_evaluated", .arr [badPriceElement])]

/-! ## Lemmas about the string primitives -/

theorem leadsWith_refl (l : List Char) : leadsWith l l = true := by
  induction l with
  | nil => rfl
  | cons c cs ih => simp [leadsWith, ih]

theorem leadsWith_append (p t : List Char) : leadsWith p (p ++ t) = true := by
  induction p with
  | nil => rfl
  | cons c cs ih => simp [leadsWith, ih]

theorem leadsWith_trans {p q l : List Char} (hpq : leadsWith p q = true)
    (hql : leadsWith q l = true) : leadsWith p l = true := by
  induction p generalizing q l with
  | nil => rfl
  | cons c cs ih =>
    cases q with
    | nil => simp [leadsWith] at hpq
    | cons d ds =>
      cases l with
      | nil => simp [leadsWith] at hql
      | cons e es =>
        simp only [leadsWith] at hpq hql ⊢
        split at hpq
        · subst_vars
          split at hql
          · subst_vars
            simp only [if_pos rfl]
            exact ih hpq hql
          · exact absurd hql (by simp)
        · exact absurd hpq (by simp)

theorem leadsWith_avoid {w : List Char} {d : Char} (hd : d ∈ w → False) :
    ∀ {a b : List Char}, leadsWith w (a ++ d :: b) = true → leadsWith w a = true := by
  intro a
  induction a generalizing w with
  | nil =>
    intro b h
    cases w with
    | nil => rfl
    | cons c cs =>
      simp only [List.nil_append, leadsWith] at h
      split at h
      · exact absurd (List.mem_cons_self c cs) (by simp_all)
      · exact absurd h (by simp)
  | cons x xs ih =>
    intro b h
    cases w with
    | nil => rfl
    | cons c cs =>
      simp only [List.cons_append, leadsWith] at h ⊢
      split at h
      · subst_vars
        simp only [if_pos rfl]
        exact ih (fun hm => hd (List.mem_cons_of_mem _ hm)) h
      · exact absurd h (by simp)

theorem listSplitF_fuel (s0 : Char) (sr : List Char) :
    ∀ (f g : Nat) (l : List Char), l.length < f → l.length < g →
      listSplitF s0 sr f l = listSplitF s0 sr g l := by
  intro f
  induction f with
  | zero => intro g l hf; omega
  | succ f ih =>
    intro g l hf hg
    cases g with
    | zero => omega
    | succ g =>
      cases l with
      | nil => rfl
      | cons c rest =>
        simp only [listSplitF]
        have hr : rest.length < f := by simp at hf; omega
        have hr' : rest.length < g := by simp at hg; omega
        have hd : (rest.drop sr.length).length < f := by
          rw [List.length_drop]; omega
        have hd' : (rest.drop sr.length).length < g := by
          rw [List.length_drop]; omega
        rw [ih g (rest.drop sr.length) hd hd', ih g rest hr hr']

theorem listSplit_nil (s0 : Char) (sr : List Char) : listSplit s0 sr [] = [[]] := rfl

theorem listSplit_pos {s0 : Char} {sr : List Char} {c : Char} {rest : List Char}
    (h : leadsWith (s0 :: sr) (c :: rest) = true) :
    listSplit s0 sr (c :: rest) = [] :: listSplit s0 sr (rest.drop sr.length) := by
  have hlen : (rest.drop sr.length).length ≤ rest.length := by
    rw [List.length_drop]; omega
  simp only [listSplit, List.length_cons, listSplitF, if_pos h]
  rw [listSplitF_fuel s0 sr (rest.length + 1) ((rest.drop sr.length).length + 1)
    (rest.drop sr.length) (by omega) (by omega)]

theorem listSplit_neg {s0 : Char} {sr : List Char} {c : Char} {rest : List Char}
    (h : leadsWith (s0 :: sr) (c :: rest) = false) :
    listSplit s0 sr (c :: rest) =
      match listSplit s0 sr rest with
      | [] => [[c]]
      | seg :: segs => (c :: seg) :: segs := by
  simp only [listSplit, List.length_cons, listSplitF, h, Bool.false_eq_true, if_false]

theorem listSplit_ne_nil (s0 : Char) (sr : List Char) (l : List Char) :
    listSplit s0 sr l ≠ [] := by
  cases l with
  | nil => simp [listSplit_nil]
  | cons c rest =>
    cases h : leadsWith (s0 :: sr) (c :: rest) with
    | true => rw [listSplit_pos h]; simp
    | false =>
      rw [listSplit_neg h]
      cases listSplit s0 sr rest <;> simp

theorem listSplit_of_not_contains {s0 : Char} {sr l : List Char}
    (h : listContainsSeg (s0 :: sr) l = false) : listSplit s0 sr l = [l] := by
  induction l with
  | nil => exact listSplit_nil s0 sr
  | cons c rest ih =>
    simp only [listContainsSeg, Bool.or_eq_false_iff] at h
    rw [listSplit_neg h.1, ih h.2]

theorem listSplit_append_self (s0 : Char) (sr l : List Char) :
    listSplit s0 sr ((s0 :: sr) ++ l) = [] :: listSplit s0 sr l := by
  have h : leadsWith (s0 :: sr) ((s0 :: sr) ++ l) = true := leadsWith_append _ _
  rw [show (s0 :: sr) ++ l = s0 :: (sr ++ l) from rfl] at h ⊢
  rw [listSplit_pos h, List.drop_left]

theorem contains_mono {p q l : List Char} (hpq : leadsWith p q = true)
    (h : listContainsSeg q l = true) : listContainsSeg p l = true := by
  induction l with
  | nil =>
    simp only [listContainsSeg, List.isEmpty_iff] at h ⊢
    subst h
    cases p with
    | nil => rfl
    | cons c cs => simp [leadsWith] at hpq
  | cons c rest ih =>
    simp only [listContainsSeg, Bool.or_eq_true] at h ⊢
    rcases h with h | h
    · exact Or.inl (leadsWith_trans hpq h)
    · exact Or.inr (ih h)

theorem not_contains_of_leadsWith {p q l : List Char} (hpq : leadsWith p q = true)
    (h : listContainsSeg p l = false) : listContainsSeg q l = false := by
  cases hq : listContainsSeg q l with
  | false => rfl
  | true => rw [contains_mono hpq hq] at h; exact absurd h (by simp)

theorem two_le_split_length {s0 : Char} {sr l : List Char}
    (h : listContainsSeg (s0 :: sr) l = true) : 2 ≤ (listSplit s0 sr l).length := by
  induction l with
  | nil => simp [listContainsSeg] at h
  | cons c rest ih =>
    simp only [listContainsSeg, Bool.or_eq_true] at h
    cases hl : leadsWith (s0 :: sr) (c :: rest) with
    | true =>
      rw [listSplit_pos hl]
      have := listSplit_ne_nil s0 sr (rest.drop sr.length)
      have : 1 ≤ (listSplit s0 sr (rest.drop sr.length)).length :=
        Nat.one_le_iff_ne_zero.mpr (by simpa [List.length_eq_zero] using this)
      simp only [List.length_cons]
      omega
    | false =>
      rcases h with h | h
      · rw [hl] at h; exact absurd h (by simp)
      · rw [listSplit_neg hl]
        have h2 := ih h
        rcases he : listSplit s0 sr rest with _ | ⟨seg, segs⟩
        · exact absurd he (listSplit_ne_nil s0 sr rest)
        · rw [he] at h2; simpa using h2

theorem contains_append_self (a b : List Char) : listContainsSeg b (a ++ b) = true := by
  induction a with
  | nil =>
    cases b with
    | nil => rfl
    | cons c cs => simp [listContainsSeg, leadsWith_refl]
  | cons x xs ih =>
    simp only [List.cons_append, listContainsSeg, List.append_eq, ih, Bool.or_true]

theorem contains_nil_sep (l : List Char) : listContainsSeg [] l = true := by
  cases l <;> simp [listContainsSeg, leadsWith]

theorem not_contains_extend {sepS sepB : List Char} {d : Char}
    (hpre : leadsWith sepS sepB = true) (hd : d ∈ sepB → False)
    (hbase : listContainsSeg sepB (d :: sepS) = false) :
    ∀ {a : List Char}, listContainsSeg sepS a = false →
      listContainsSeg sepB (a ++ d :: sepS) = false := by
  intro a
  induction a with
  | nil => intro _; exact hbase
  | cons c rest ih =>
    intro h
    simp only [listContainsSeg, Bool.or_eq_false_iff] at h
    simp only [List.cons_append, listContainsSeg, List.append_eq, Bool.or_eq_false_iff]
    constructor
    · cases hl : leadsWith sepB (c :: rest ++ d :: sepS) with
      | false => exact hl
      | true =>
        have hca : leadsWith sepB ((c :: rest) ++ d :: sepS) = true := hl
        have : leadsWith sepS (c :: rest) = true :=
          leadsWith_trans hpre (leadsWith_avoid hd hca)
        rw [this] at h
        exact absurd h.1 (by simp)
    · exact ih h.2

theorem split_append_terminal {s0 : Char} {sr : List Char} {d : Char}
    (hd : d ∈ s0 :: sr → False) :
    ∀ {a : List Char}, listContainsSeg (s0 :: sr) a = false →
      listSplit s0 sr (a ++ d :: s0 :: sr) = [a ++ [d], []] := by
  intro a
  induction a with
  | nil =>
    intro _
    have hl : leadsWith (s0 :: sr) (d :: s0 :: sr) = false := by
      simp only [leadsWith]
      split
      · exact absurd (List.mem_cons_self s0 sr) (by simp_all)
      · rfl
    rw [List.nil_append, listSplit_neg hl]
    have : listSplit s0 sr (s0 :: sr) = [[], []] := by
      have := listSplit_append_self s0 sr []
      simpa using this
    rw [this]
    rfl
  | cons c rest ih =>
    intro h
    simp only [listContainsSeg, Bool.or_eq_false_iff] at h
    have hl : leadsWith (s0 :: sr) (c :: (rest ++ d :: s0 :: sr)) = false := by
      cases hq : leadsWith (s0 :: sr) (c :: (rest ++ d :: s0 :: sr)) with
      | false => rfl
      | true =>
        have hca : leadsWith (s0 :: sr) ((c :: rest) ++ d :: s0 :: sr) = true := hq
        have := leadsWith_avoid hd hca
        rw [this] at h
        exact absurd h.1 (by simp)
    rw [List.cons_append, listSplit_neg hl, ih h.2]
    rfl

theorem dropWhile_idem (p : Char → Bool) (l : List Char) :
    (l.dropWhile p).dropWhile p = l.dropWhile p := by
  induction l with
  | nil => rfl
  | cons c rest ih =>
    cases hc : p c with
    | true => simp only [List.dropWhile_cons, hc, if_true]; exact ih
    | false => simp only [List.dropWhile_cons, hc, Bool.false_eq_true, if_false]

theorem dropWhile_length_le (p : Char → Bool) (l : List Char) :
    (l.dropWhile p).length ≤ l.length := by
  induction l with
  | nil => simp
  | cons c rest ih =>
    cases hc : p c with
    | true =>
      simp only [List.dropWhile_cons, hc, if_true, List.length_cons]
      omega
    | false => simp [List.dropWhile_cons, hc]

theorem dropWhile_append_cases (p : Char → Bool) (ys : List Char) :
    ∀ xs : List Char, (xs ++ ys).dropWhile p = ys.dropWhile p ∨
      ∃ t, (xs ++ ys).dropWhile p = t ++ ys := by
  intro xs
  induction xs with
  | nil => exact Or.inl (by simp)
  | cons x xs' ih =>
    cases hx : p x with
    | true => simpa only [List.cons_append, List.dropWhile_cons, hx, if_true] using ih
    | false =>
      refine Or.inr ⟨x :: xs', ?_⟩
      simp only [List.cons_append, List.dropWhile_cons, hx, Bool.false_eq_true, if_false]

theorem dropWhile_concat_of_pos {p : Char → Bool} {c : Char} (hc : p c = true) :
    ∀ xs : List Char, (xs ++ [c]).dropWhile p =
      if xs.dropWhile p = [] then [] else xs.dropWhile p ++ [c] := by
  intro xs
  induction xs with
  | nil => simp [List.dropWhile_cons, hc]
  | cons x xs' ih =>
    cases hx : p x with
    | true => simpa only [List.cons_append, List.dropWhile_cons, hx, if_true] using ih
    | false =>
      simp only [List.cons_append, List.dropWhile_cons, hx, Bool.false_eq_true, if_false,
        List.cons_ne_nil, ite_false]

/-- Trimming on the right preserves the absence of leading whitespace. -/
theorem dropWhile_trimRight_fixed {p : Char → Bool} {l : List Char}
    (h : l.dropWhile p = l) :
    ((l.reverse.dropWhile p).reverse).dropWhile p = (l.reverse.dropWhile p).reverse := by
  cases l with
  | nil => rfl
  | cons a l' =>
    have ha : p a = false := by
      cases hp : p a with
      | false => rfl
      | true =>
        have hlen : (l'.dropWhile p).length ≤ l'.length := dropWhile_length_le p l'
        rw [List.dropWhile_cons, hp, if_pos rfl] at h
        have := congrArg List.length h
        simp only [List.length_cons] at this
        omega
    have hrev : (a :: l').reverse = l'.reverse ++ [a] := by simp
    rw [hrev]
    rcases dropWhile_append_cases p [a] l'.reverse with hcase | ⟨t, hcase⟩
    · rw [hcase]
      simp [List.dropWhile_cons, ha]
    · rw [hcase]
      simp only [List.reverse_append, List.reverse_cons, List.reverse_nil, List.nil_append,
        List.singleton_append, List.dropWhile_cons, ha, Bool.false_eq_true, if_false]

theorem listTrim_idem (l : List Char) : listTrim (listTrim l) = listTrim l := by
  unfold listTrim
  have h1 : ∀ m : List Char, (m.dropWhile Char.isWhitespace).dropWhile Char.isWhitespace
      = m.dropWhile Char.isWhitespace := fun m => dropWhile_idem _ m
  set y := l.dropWhile Char.isWhitespace with hy
  have hyfix : y.dropWhile Char.isWhitespace = y := h1 l
  have hfix := dropWhile_trimRight_fixed (p := Char.isWhitespace) hyfix
  rw [hfix, List.reverse_reverse, dropWhile_idem]

theorem listTrim_cons_ws {c : Char} (hc : c.isWhitespace = true) (l : List Char) :
    listTrim (c :: l) = listTrim l := by
  unfold listTrim
  rw [List.dropWhile_cons, hc, if_pos rfl]

theorem listTrim_concat_ws {c : Char} (hc : c.isWhitespace = true) (l : List Char) :
    listTrim (l ++ [c]) = listTrim l := by
  unfold listTrim
  rw [dropWhile_concat_of_pos hc l]
  by_cases h : l.dropWhile Char.isWhitespace = []
  · rw [if_pos h, h]
  · rw [if_neg h]
    simp only [List.reverse_append, List.reverse_cons, List.reverse_nil, List.nil_append,
      List.singleton_append, List.dropWhile_cons, hc, if_pos rfl, if_true]

/-! ## String-level bridge lemmas -/

theorem jsSplit_eq (t sep : String) {s0 : Char} {sr : List Char}
    (hsep : sep.data = s0 :: sr) :
    jsSplit t sep = (listSplit s0 sr t.data).map String.mk := by
  rw [jsSplit, hsep]

theorem contains_self_append (p t : List Char) (hp : p ≠ []) :
    listContainsSeg p (p ++ t) = true := by
  cases p with
  | nil => exact absurd rfl hp
  | cons p0 pr =>
    simp only [List.cons_append, listContainsSeg, List.append_eq, Bool.or_eq_true]
    exact Or.inl (leadsWith_append (p0 :: pr) t)

theorem parse_trim (s : String) :
    Json.parse (String.mk (listTrim s.data)) = Json.parse s := by
  simp only [Json.parse]
  rw [listTrim_idem]

theorem parse_nonempty {s : String} {v : Json} (h : Json.parse s = some v) :
    listTrim s.data ≠ [] := by
  intro hnil
  simp only [Json.parse, hnil] at h
  exact Option.noConfusion ((show parseCore ([] : List Char) = none from rfl) ▸ h)

theorem mk_trim_ne_empty {s : String} (hne : listTrim s.data ≠ []) :
    ¬ String.mk (listTrim s.data) = "" := by
  intro h
  exact hne (by simpa using congrArg String.data h)

theorem extract_of_no_fence {s : String} (h : jsIncludes s fenceTag = false) :
    extractJson s = s := by
  have hj : jsIncludes s jsonFenceTag = false :=
    not_contains_of_leadsWith (p := fenceTag.data) (q := jsonFenceTag.data) (by decide) h
  simp only [extractJson, hj, h, Bool.false_eq_true, if_false]

theorem extract_wrap (s : String) (hfence : jsIncludes s fenceTag = false)
    (hne : listTrim s.data ≠ []) :
    extractJson (wrapJson s) = String.mk (listTrim s.data) := by
  obtain ⟨j0, jr, hj⟩ : ∃ j0 jr, jsonFenceTag.data = j0 :: jr := ⟨_, _, rfl⟩
  obtain ⟨f0, fr, hf⟩ : ∃ f0 fr, fenceTag.data = f0 :: fr := ⟨_, _, rfl⟩
  have hdata : (wrapJson s).data =
      jsonFenceTag.data ++ ('\n' :: s.data ++ '\n' :: fenceTag.data) := by
    simp only [wrapJson, String.data_append, jsonFenceTag, fenceTag]
    simp
  have hlw : leadsWith fenceTag.data ('\n' :: s.data) = false := rfl
  have hcontA : listContainsSeg fenceTag.data ('\n' :: s.data) = false := by
    simp only [listContainsSeg, Bool.or_eq_false_iff]
    exact ⟨hlw, hfence⟩
  have hcontTail : listContainsSeg jsonFenceTag.data
      (('\n' :: s.data) ++ '\n' :: fenceTag.data) = false := by
    refine not_contains_extend ?_ ?_ ?_ hcontA
    · decide
    · decide
    · decide
  have hwrapIncl : jsIncludes (wrapJson s) jsonFenceTag = true := by
    show listContainsSeg jsonFenceTag.data (wrapJson s).data = true
    rw [hdata]
    exact contains_self_append _ _ (by rw [hj]; simp)
  have hsplit1 : jsSplit (wrapJson s) jsonFenceTag =
      ["", String.mk ('\n' :: s.data ++ '\n' :: fenceTag.data)] := by
    rw [jsSplit_eq _ _ hj, hdata, hj, listSplit_append_self]
    rw [listSplit_of_not_contains (by rw [← hj]; exact hcontTail)]
    rfl
  have hsplit2 : jsSplit (String.mk ('\n' :: s.data ++ '\n' :: fenceTag.data)) fenceTag =
      [String.mk (('\n' :: s.data) ++ ['\n']), ""] := by
    rw [jsSplit_eq _ _ hf]
    rw [show (String.mk ('\n' :: s.data ++ '\n' :: fenceTag.data)).data =
      ('\n' :: s.data) ++ '\n' :: fenceTag.data from by simp]
    rw [hf]
    rw [split_append_terminal (by rw [← hf]; decide) (by rw [← hf]; exact hcontA)]
    rfl
  have htrim : jsTrim (String.mk (('\n' :: s.data) ++ ['\n'])) = String.mk (listTrim s.data) := by
    simp only [jsTrim]
    congr 1
    rw [List.cons_append, listTrim_cons_ws (by decide), listTrim_concat_ws (by decide)]
  rw [extractJson, if_pos hwrapIncl, hsplit1]
  show orElseText (some (jsTrim ((jsSplit (String.mk
    ('\n' :: s.data ++ '\n' :: fenceTag.data)) fenceTag).headD ""))) (wrapJson s) = _
  rw [hsplit2]
  show orElseText (some (jsTrim (String.mk (('\n' :: s.data) ++ ['\n'])))) (wrapJson s) = _
  rw [htrim, orElseText, if_neg (mk_trim_ne_empty hne)]

/-! ## Claims about the extraction step (C6, C7) -/

/-- Claim C6, as stated, is false on the code: the text consisting of an
empty JSON-labelled fenced block contains a JSON-labelled fence, yet the
extracted payload is the entire text, not the (empty) block contents —
the `|| text` fallback fires on the falsy empty string. -/
theorem c6_counterexample :
    hasJsonFence "```json```" = true ∧
      extractJson "```json```" ≠ jsonBlockContents "```json```" := by
  constructor
  · rfl
  · decide

/-- Claim C6 (amended): for every raw response text, if the text contains a
JSON-labelled fenced block the payload is that block's trimmed contents
unless those contents are empty, in which case it is the entire text;
otherwise, if the text contains any fenced block, likewise that block's
trimmed contents or, when they are empty, the entire text; otherwise the
payload is the entire text. -/
theorem c6_extraction_cases (text : String) :
    (hasJsonFence text = true →
      extractJson text =
        (if jsonBlockContents text = "" then text else jsonBlockContents text))
    ∧ (hasJsonFence text = false → hasFence text = true →
      extractJson text =
        (if anyBlockContents text = "" then text else anyBlockContents text))
    ∧ (hasFence text = false → extractJson text = text) := by
  obtain ⟨j0, jr, hj⟩ : ∃ j0 jr, jsonFenceTag.data = j0 :: jr := ⟨_, _, rfl⟩
  obtain ⟨f0, fr, hf⟩ : ∃ f0 fr, fenceTag.data = f0 :: fr := ⟨_, _, rfl⟩
  refine ⟨?_, ?_, ?_⟩
  · intro h
    have hlen : 2 ≤ (jsSplit text jsonFenceTag).length := by
      rw [jsSplit_eq _ _ hj, List.length_map]
      exact two_le_split_length (by rw [← hj]; exact h)
    obtain ⟨x, hx⟩ : ∃ x, (jsSplit text jsonFenceTag)[1]? = some x :=
      ⟨_, List.getElem?_eq_getElem (by omega)⟩
    have h' : jsIncludes text jsonFenceTag = true := h
    rw [extractJson, if_pos h', hx, jsonBlockContents, hx]
    rfl
  · intro hnot h
    have hlen : 2 ≤ (jsSplit text fenceTag).length := by
      rw [jsSplit_eq _ _ hf, List.length_map]
      exact two_le_split_length (by rw [← hf]; exact h)
    obtain ⟨x, hx⟩ : ∃ x, (jsSplit text fenceTag)[1]? = some x :=
      ⟨_, List.getElem?_eq_getElem (by omega)⟩
    have h' : jsIncludes text fenceTag = true := h
    have hnot' : jsIncludes text jsonFenceTag = false := hnot
    rw [extractJson, if_neg (by rw [hnot']; exact Bool.false_ne_true), if_pos h', hx,
      anyBlockContents, hx]
    rfl
  · intro h
    exact extract_of_no_fence h

/-- Witness for C6: on a response with a labelled block the payload is the
trimmed block contents. -/
theorem c6_extraction_cases_witness :
    extractJson "x ```json [2] ``` y" = "[2]" := by
  have h := (c6_extraction_cases "x ```json [2] ``` y").1 rfl
  rw [h]
  rfl

/-- Claim C7: for every valid JSON string with no fence markers, the
extraction step applied to the bare string and to the string wrapped in a
JSON-labelled fenced block yields payloads parsing to the same JSON value. -/
theorem c7_extract_parse_agree (s : String) (v : Json)
    (hfence : hasFence s = false) (hparse : Json.parse s = some v) :
    Json.parse (extractJson s) = some v ∧
      Json.parse (extractJson (wrapJson s)) = some v := by
  have hinc : jsIncludes s fenceTag = false := hfence
  constructor
  · rw [extract_of_no_fence hinc]
    exact hparse
  · rw [extract_wrap s hinc (parse_nonempty hparse), parse_trim]
    exact hparse

/-- Witness for C7 at the fence-free JSON text `[1]`. -/
theorem c7_extract_parse_agree_witness :
    Json.parse (extractJson (wrapJson "[1]")) = some (Json.arr [Json.num 1]) :=
  (c7_extract_parse_agree "[1]" (Json.arr [Json.num 1]) rfl rfl).2

/-! ## Claims about the fallback pipeline (C1–C5) -/

/-- Claim C1 fails on the code: with the credential set and a request whose
only phone id is "p1", a backend payload selecting the unknown id "zzz"
parses, validates, and is returned as a successful Comparison Result —
`compareAndSelectPhone` performs no membership check of the returned phone
ids against the request's phone list. -/
theorem c1_foreign_id_accepted :
    (compareAndSelectPhone envWithKey backendForeign requestP1).2 =
        Except.ok foreignComparison
      ∧ foreignComparison.selected_phone.phone_id = "zzz"
      ∧ (requestP1.phones.map PhoneData.id).contains
          foreignComparison.selected_phone.phone_id = false :=
  ⟨rfl, rfl, rfl⟩

/-- Claim C2: when the preconditions pass and the first candidate's attempt
(extraction, parse, validation of its response) succeeds with `v`, the call
returns `v` and the invocation trace is exactly the first model — the
second candidate is never invoked. -/
theorem c2_first_success_short_circuit (env : Env) (backend : String → BackendResponse)
    (request : ComparisonRequest) (v : PhoneComparison)
    (hkey : env.apiKeyFalsy = false) (hphones : ¬ request.phones.length = 0)
    (hfirst : attempt (backend "gemini-2.0-flash-exp") = Except.ok v) :
    compareAndSelectPhone env backend request = (["gemini-2.0-flash-exp"], Except.ok v) := by
  rw [compareAndSelectPhone, if_neg (by rw [hkey]; exact Bool.false_ne_true), if_neg hphones]
  simp only [modelsToTry, runModels, hfirst]

/-- Witness for C2: a backend whose first model answers validly is invoked
exactly once and its validated payload is returned. -/
theorem c2_first_success_short_circuit_witness :
    compareAndSelectPhone envWithKey backendFirstOk requestP1 =
      (["gemini-2.0-flash-exp"], Except.ok comparisonP2) :=
  c2_first_success_short_circuit envWithKey backendFirstOk requestP1 comparisonP2
    rfl (by decide) rfl

/-- Claim C3: when the preconditions pass, the first candidate's attempt
fails (transport, parse, or validation error) and the second candidate's
attempt succeeds with `v`, the call succeeds with `v` (after invoking both
candidates in order). -/
theorem c3_second_candidate_recovers (env : Env) (backend : String → BackendResponse)
    (request : ComparisonRequest) (e : AttemptError) (v : PhoneComparison)
    (hkey : env.apiKeyFalsy = false) (hphones : ¬ request.phones.length = 0)
    (hfirst : attempt (backend "gemini-2.0-flash-exp") = Except.error e)
    (hsecond : attempt (backend "gemini-1.5-flash") = Except.ok v) :
    compareAndSelectPhone env backend request =
      (["gemini-2.0-flash-exp", "gemini-1.5-flash"], Except.ok v) := by
  rw [compareAndSelectPhone, if_neg (by rw [hkey]; exact Bool.false_ne_true), if_neg hphones]
  simp only [modelsToTry, runModels, hfirst, hsecond]

/-- Witness for C3: first model fails with a transport error, second
returns the valid payload; the call succeeds with the second's result. -/
theorem c3_second_candidate_recovers_witness :
    compareAndSelectPhone envWithKey backendSecondOk requestP1 =
      (["gemini-2.0-flash-exp", "gemini-1.5-flash"], Except.ok comparisonP2) :=
  c3_second_candidate_recovers envWithKey backendSecondOk requestP1
    (AttemptError.transport "quota exceeded") comparisonP2 rfl (by decide) rfl rfl

/-- Claim C4: when the preconditions pass and both candidates' attempts
fail, the call fails with the aggregated error; its message is non-empty
and contains the last candidate's underlying failure message. -/
theorem c4_all_failed_aggregate (env : Env) (backend : String → BackendResponse)
    (request : ComparisonRequest) (e0 e1 : AttemptError)
    (hkey : env.apiKeyFalsy = false) (hphones : ¬ request.phones.length = 0)
    (hfirst : attempt (backend "gemini-2.0-flash-exp") = Except.error e0)
    (hsecond : attempt (backend "gemini-1.5-flash") = Except.error e1) :
    compareAndSelectPhone env backend request =
      (["gemini-2.0-flash-exp", "gemini-1.5-flash"],
        Except.error (allFailedMessage (some e1)))
    ∧ ¬ allFailedMessage (some e1) = ""
    ∧ jsIncludes (allFailedMessage (some e1)) e1.message = true := by
  refine ⟨?_, ?_, ?_⟩
  · rw [compareAndSelectPhone, if_neg (by rw [hkey]; exact Bool.false_ne_true), if_neg hphones]
    simp only [modelsToTry, runModels, hfirst, hsecond]
  · intro hcontra
    have h2 := congrArg String.data hcontra
    rw [allFailedMessage, String.data_append] at h2
    simp at h2
  · by_cases hm : e1.message = ""
    · rw [hm]
      exact contains_nil_sep _
    · rw [allFailedMessage, if_neg hm]
      show listContainsSeg e1.message.data
        ("All Gemini models failed. Last error: " ++ e1.message).data = true
      rw [String.data_append]
      exact contains_append_self _ _

/-- Witness for C4: both models fail with a transport error; the aggregated
message is non-empty and contains the last failure message. -/
theorem c4_all_failed_aggregate_witness :
    (compareAndSelectPhone envWithKey backendAllFail requestP1).2 =
        Except.error "All Gemini models failed. Last error: service down"
      ∧ jsIncludes "All Gemini models failed. Last error: service down" "service down"
          = true := by
  have h := c4_all_failed_aggregate envWithKey backendAllFail requestP1
    (AttemptError.transport "service down") (AttemptError.transport "service down")
    rfl (by decide) rfl rfl
  exact ⟨by rw [h.1]; rfl, h.2.2⟩

/-- Claim C5: a request with an empty phone list, or one made while the
credential is absent, fails with the corresponding precondition error and
the invocation trace is empty — no backend candidate is invoked. -/
theorem c5_precondition_fast_fail (env : Env) (backend : String → BackendResponse)
    (request : ComparisonRequest)
    (h : request.phones = [] ∨ env.apiKey = none) :
    (compareAndSelectPhone env backend request).1 = []
    ∧ ((compareAndSelectPhone env backend request).2 =
          Except.error "GEMINI_API_KEY is not set"
       ∨ (compareAndSelectPhone env backend request).2 =
          Except.error "No phones to compare") := by
  cases hkey : env.apiKeyFalsy with
  | true =>
    rw [compareAndSelectPhone, if_pos hkey]
    exact ⟨rfl, Or.inl rfl⟩
  | false =>
    have hphones : request.phones = [] := by
      rcases h with h | h
      · exact h
      · rw [Env.apiKeyFalsy, h] at hkey
        exact absurd hkey (by simp)
    rw [compareAndSelectPhone, if_neg (by rw [hkey]; exact Bool.false_ne_true),
      if_pos (by rw [hphones]; rfl)]
    exact ⟨rfl, Or.inr rfl⟩

/-- Witness for C5 at a concrete empty-phone-list request. -/
theorem c5_precondition_fast_fail_witness :
    (compareAndSelectPhone envWithKey backendAllFail
      { phones := [], budget := none, priorities := ["battery"],
        additionalRequirements := none }).1 = [] := by
  have h := c5_precondition_fast_fail envWithKey backendAllFail
    { phones := [], budget := none, priorities := ["battery"],
      additionalRequirements := none } (Or.inl rfl)
  exact h.1

/-! ## Claims about the validator and the orchestration layer (C8, C9, C10) -/

theorem parseAll_none {α β : Type} {f : α → Option β} {l : List α} {x : α}
    (hx : x ∈ l) (hfx : f x = none) : parseAll f l = none := by
  induction l with
  | nil => cases hx
  | cons a as ih =>
    rcases List.mem_cons.mp hx with rfl | hmem
    · simp [parseAll, hfx]
    · cases ha : f a with
      | none => simp [parseAll, ha]
      | some y => simp [parseAll, ha, ih hmem]

theorem parsePhoneEvaluated_str_price {e : Json} {s : String}
    (hp : e.getField "price_inr" = some (Json.str s)) :
    parsePhoneEvaluated e = none := by
  rw [parsePhoneEvaluated]
  cases h1 : fieldWith asStr e "phone_id" with
  | none => rfl
  | some pid =>
    cases h2 : fieldWith asStr e "phone_name" with
    | none => simp [h1]
    | some pname =>
      have h3 : fieldWith asNum e "price_inr" = none := by
        rw [fieldWith, hp]
        rfl
      simp [h1, h2, h3]

/-- Claim C8: the Response Validator rejects every payload whose required
top-level field `selected_phone` is absent, rejects every payload in which
an `all_phones_evaluated` element gives the numeric field `price_inr` as a
string, and accepts a payload in which the optional `runner_up` and both
budget-alternative fields are omitted entirely. -/
theorem c8_validator_shape :
    (∀ j : Json, j.getField "selected_phone" = none →
      PhoneComparisonSchema.parse j = none)
    ∧ (∀ (j e : Json) (items : List Json) (s : String),
        j.getField "all_phones_evaluated" = some (Json.arr items) → e ∈ items →
        e.getField "price_inr" = some (Json.str s) →
        PhoneComparisonSchema.parse j = none)
    ∧ PhoneComparisonSchema.parse minimalPayload = some minimalComparison := by
  refine ⟨?_, ?_, rfl⟩
  · intro j h
    rw [PhoneComparisonSchema.parse]
    have h1 : fieldWith parseSelectedPhone j "selected_phone" = none := by
      rw [fieldWith, h]
      rfl
    simp [h1]
  · intro j e items s hf hmem hp
    have hall : parseAll parsePhoneEvaluated items = none :=
      parseAll_none hmem (parsePhoneEvaluated_str_price hp)
    rw [PhoneComparisonSchema.parse]
    cases h1 : fieldWith parseSelectedPhone j "selected_phone" with
    | none => rfl
    | some sel =>
      cases h2 : parseOptional parseRunnerUp (j.getField "runner_up") with
      | none => simp [h1]
      | some ru =>
        have h3 : (fieldWith asArr j "all_phones_evaluated").bind
            (parseAll parsePhoneEvaluated) = none := by
          rw [fieldWith, hf]
          show parseAll parsePhoneEvaluated items = none
          exact hall
        simp [h1, h2, h3]

/-- Witness for C8: a payload without `selected_phone` and a payload with a
string-valued `price_inr` are both rejected. -/
theorem c8_validator_shape_witness :
    PhoneComparisonSchema.parse (Json.obj []) = none
      ∧ PhoneComparisonSchema.parse badPricePayload = none :=
  ⟨c8_validator_shape.1 (Json.obj []) rfl,
   c8_validator_shape.2.1 badPricePayload badPriceElement [badPriceElement] "expensive"
     rfl (List.mem_cons_self _ _) rfl⟩

/-- Claim C9: the `comparePhones` server action is total on its embedding
(the `try`/`catch` turns every thrown error into an error state), and the
state it returns carries a comparison exactly when it carries no error. -/
theorem c9_comparePhones_consistent (catalog : List PhoneData) (env : Env)
    (backend : String → BackendResponse) (formData : FormDataModel) :
    ¬ (comparePhones catalog env backend formData).comparison = none ↔
      (comparePhones catalog env backend formData).error = none := by
  simp only [comparePhones]
  split
  · simp [errorState]
  · split
    · simp [errorState]
    · split
      · split <;> simp [errorState]
      · split <;> simp [errorState]

/-- Claim C10: `compareWithGrounding` is `compareAndSelectPhone` with the
comparison paired to an empty source list — identical invocation trace,
identical success or failure, and never a non-empty `sources`. -/
theorem c10_grounding_refines (env : Env) (backend : String → BackendResponse)
    (request : ComparisonRequest) :
    compareWithGrounding env backend request =
      ((compareAndSelectPhone env backend request).1,
        (compareAndSelectPhone env backend request).2.map fun c =>
          { comparison := c, sources := [] }) := rfl

end Referee
